import Mathlib

/-!
Shallow embedding of `src/domain/loans/ledger_calculator.py`
(class `LedgerCalculator`) from the `ledger_calculator` repository.

Modelling choices, each tied to the source:
* Python `Decimal` values are embedded as `ℚ` (the source performs only
  exact `+`, `-`, `*` on decimal fractions; `Decimal('0.00035')` is the
  rational `35/100000`).
* Calendar dates (`datetime.date` obtained by `strptime(_, '%Y-%m-%d')`)
  are embedded as proleptic-Gregorian day ordinals (`ℤ`); subtracting two
  parsed dates and taking `.days` is ordinal subtraction, and
  `date + timedelta(days=1)` is `ordinal + 1`.  `days_from_civil` below
  converts a `y-m-d` date to its ordinal.
* The mutable attributes of one `LedgerCalculator` instance form the
  `LedgerState` record; every Python method mutating `self` becomes a
  function from state to state (returning the method's value as well where
  there is one).
* `self.event_handlers[event['type']]` raises `KeyError` when the type is
  neither `'advance'` nor `'payment'`; that exception (the spec's
  `InvalidEventKind`) is embedded as `Except.error LedgerError.invalidEventKind`,
  which aborts `calculate_balances` just as the uncaught exception does.
* Python truthiness tests on `Decimal` (`if not payment_amount`,
  `_has_account_balance`, `_has_interest_balance_to_pay`,
  `_has_advanced_balances_to_pay`, and the guards inside
  `_pay_advanced_balances`) are `≠ 0` tests.
-/

/-- One row of the `events` table as consumed by the calculator:
`event['id']`, `event['type']`, `event['amount']`, `event['date_created']`. -/
structure Event where
  id : ℤ
  type : String
  amount : ℚ
  date_created : ℤ
  deriving DecidableEq, Repr

/-- One entry of `self.advances` (the dict appended by
`_advance_event_handler`). -/
structure Advance where
  id : ℤ
  date : ℤ
  initial_amount : ℚ
  current_balance : ℚ
  deriving DecidableEq, Repr

/-- The mutable attributes of a `LedgerCalculator` instance
(see `LedgerCalculator.__init__`). -/
structure LedgerState where
  overall_advance_balance : ℚ
  overall_interest_payable_balance : ℚ
  overall_interest_paid : ℚ
  overall_payments_for_future : ℚ
  last_interest_date_calculated : Option ℤ
  advances : List Advance
  deriving DecidableEq, Repr

/-- The state built by `LedgerCalculator.__init__`: all balances zero,
no interest date yet, no advances. -/
def init_state : LedgerState :=
  { overall_advance_balance := 0
    overall_interest_payable_balance := 0
    overall_interest_paid := 0
    overall_payments_for_future := 0
    last_interest_date_calculated := none
    advances := [] }

/-- The only failure `calculate_balances` can produce: the `KeyError`
raised by `self.event_handlers[event['type']]` on an unrecognized type
(the spec calls this condition `InvalidEventKind`). -/
inductive LedgerError where
  | invalidEventKind
  deriving DecidableEq, Repr

/-- `LedgerCalculator._subtract_smaller_from_larger`. -/
def subtract_smaller_from_larger (amount1 amount2 : ℚ) : ℚ × ℚ :=
  if amount1 < amount2 then (0, amount2 - amount1)
  else (amount1 - amount2, 0)

/-- `LedgerCalculator._calculate_interest_to_pay`: on the first call only
record the date; afterwards accrue `balance * rate * days` over the gap
from `last_interest_date_calculated` to `interest_date` and move the date
forward. -/
def calculate_interest_to_pay (interest_rate : ℚ) (s : LedgerState)
    (interest_date : ℤ) : LedgerState :=
  match s.last_interest_date_calculated with
  | none => { s with last_interest_date_calculated := some interest_date }
  | some last =>
      { s with
        overall_interest_payable_balance :=
          s.overall_interest_payable_balance +
            s.overall_advance_balance * interest_rate * (interest_date - last)
        last_interest_date_calculated := some interest_date }

/-- `LedgerCalculator._pay_with_account_balance`: offset a new draw against
`overall_payments_for_future` when that credit is nonzero; returns the
updated state and the remaining drawn amount. -/
def pay_with_account_balance (s : LedgerState) (advanced_amount : ℚ) :
    LedgerState × ℚ :=
  if s.overall_payments_for_future ≠ 0 then
    let p := subtract_smaller_from_larger advanced_amount
      s.overall_payments_for_future
    ({ s with overall_payments_for_future := p.2 }, p.1)
  else (s, advanced_amount)

/-- `LedgerCalculator._advance_event_handler`. -/
def advance_event_handler (interest_rate : ℚ) (s : LedgerState) (e : Event) :
    LedgerState :=
  let s1 := calculate_interest_to_pay interest_rate s e.date_created
  let r := pay_with_account_balance s1 e.amount
  { r.1 with
    advances := r.1.advances ++
      [{ id := e.id, date := e.date_created, initial_amount := e.amount,
         current_balance := r.2 }]
    overall_advance_balance := r.1.overall_advance_balance + r.2 }

/-- `LedgerCalculator._pay_interest`: route a payment to the interest
payable balance first; returns the updated state and the leftover payment. -/
def pay_interest (s : LedgerState) (payment_amount : ℚ) : LedgerState × ℚ :=
  if payment_amount ≥ s.overall_interest_payable_balance then
    ({ s with
        overall_interest_payable_balance := 0
        overall_interest_paid :=
          s.overall_interest_paid + s.overall_interest_payable_balance },
      payment_amount - s.overall_interest_payable_balance)
  else
    ({ s with
        overall_interest_payable_balance :=
          s.overall_interest_payable_balance - payment_amount
        overall_interest_paid := s.overall_interest_paid + payment_amount },
      0)

/-- The `for advance in self.advances` loop of
`LedgerCalculator._pay_advanced_balances`: walk the advances in order and,
whenever the advance's balance and the remaining amount are both nonzero,
apply `subtract_smaller_from_larger` to them. Returns the rewritten list
and the remaining `amount_to_reduce`. -/
def pay_advanced_list : List Advance → ℚ → List Advance × ℚ
  | [], amt => ([], amt)
  | a :: rest, amt =>
    if a.current_balance ≠ 0 ∧ amt ≠ 0 then
      let p := subtract_smaller_from_larger a.current_balance amt
      let r := pay_advanced_list rest p.2
      ({ a with current_balance := p.1 } :: r.1, r.2)
    else
      let r := pay_advanced_list rest amt
      (a :: r.1, r.2)

/-- `LedgerCalculator._pay_advanced_balances`: run the loop, then either
zero `overall_advance_balance` (payment exceeded the advances) or subtract
the full payment from it; returns the state and the leftover amount. -/
def pay_advanced_balances (s : LedgerState) (payment_amount : ℚ) :
    LedgerState × ℚ :=
  let r := pay_advanced_list s.advances payment_amount
  if r.2 ≠ 0 then
    ({ s with advances := r.1, overall_advance_balance := 0 }, r.2)
  else
    ({ s with
        advances := r.1
        overall_advance_balance := s.overall_advance_balance - payment_amount },
      r.2)

/-- The tail of `LedgerCalculator._pay` after the interest step: pay down
advances when `overall_advance_balance` is nonzero (returning early when the
payment is exhausted), then bank any remainder in
`overall_payments_for_future`. -/
def pay_rest (s : LedgerState) (payment_amount : ℚ) : LedgerState :=
  if s.overall_advance_balance ≠ 0 then
    let r := pay_advanced_balances s payment_amount
    if r.2 = 0 then r.1
    else { r.1 with
      overall_payments_for_future := r.1.overall_payments_for_future + r.2 }
  else
    { s with
      overall_payments_for_future := s.overall_payments_for_future + payment_amount }

/-- `LedgerCalculator._pay`: the payment waterfall — interest first (with an
early return when the payment is exhausted), then `pay_rest`. -/
def pay (s : LedgerState) (payment_amount : ℚ) : LedgerState :=
  if s.overall_interest_payable_balance ≠ 0 then
    let r := pay_interest s payment_amount
    if r.2 = 0 then r.1 else pay_rest r.1 r.2
  else pay_rest s payment_amount

/-- `LedgerCalculator._payment_event_handler`. -/
def payment_event_handler (interest_rate : ℚ) (s : LedgerState) (e : Event) :
    LedgerState :=
  pay (calculate_interest_to_pay interest_rate s e.date_created) e.amount

/-- One iteration of the `for event in self.events` loop in
`calculate_balances`: dispatch through `self.event_handlers` on
`event['type']`; an unrecognized type raises (`KeyError`, the spec's
`InvalidEventKind`). -/
def event_step (interest_rate : ℚ) (s : LedgerState) (e : Event) :
    Except LedgerError LedgerState :=
  if e.type = "advance" then Except.ok (advance_event_handler interest_rate s e)
  else if e.type = "payment" then
    Except.ok (payment_event_handler interest_rate s e)
  else Except.error LedgerError.invalidEventKind

/-- The event loop of `calculate_balances`: process events left to right,
propagating a raised error. -/
def process_events (interest_rate : ℚ) (s : LedgerState) :
    List Event → Except LedgerError LedgerState
  | [] => Except.ok s
  | e :: rest =>
    match event_step interest_rate s e with
    | Except.error err => Except.error err
    | Except.ok s1 => process_events interest_rate s1 rest

/-- `LedgerCalculator.calculate_balances`: run the event loop, then accrue
interest one final time at `end_date + 1 day`. -/
def calculate_balances (interest_rate : ℚ) (end_date : ℤ)
    (events : List Event) : Except LedgerError LedgerState :=
  match process_events interest_rate init_state events with
  | Except.error err => Except.error err
  | Except.ok s =>
      Except.ok (calculate_interest_to_pay interest_rate s (end_date + 1))

/-- Day ordinal of the proleptic-Gregorian date `y-m-d` (days from
0000-03-01), so that differences of ordinals are differences of calendar
days, exactly as Python computes `(d2 - d1).days` on parsed dates. -/
def days_from_civil (y m d : ℤ) : ℤ :=
  let y1 := if m ≤ 2 then y - 1 else y
  let era := (if 0 ≤ y1 then y1 else y1 - 399) / 400
  let yoe := y1 - era * 400
  let mp := (m + 9) % 12
  let doy := (153 * mp + 2) / 5 + d - 1
  let doe := yoe * 365 + yoe / 4 - yoe / 100 + doy
  era * 146097 + doe

/-- `Decimal('0.00035')`, the default `interest_rate` of
`LedgerCalculator.__init__`. -/
def default_rate : ℚ := 35 / 100000

/-- Sum of the `current_balance` fields of a list of advances (the quantity
`overall_advance_balance` is meant to track). -/
def sum_balances : List Advance → ℚ
  | [] => 0
  | a :: rest => a.current_balance + sum_balances rest

/-- The fields of an advance record that `_advance_event_handler` writes
once and no handler ever rewrites: `id`, `date`, `initial_amount`. -/
def advance_static (a : Advance) : ℤ × ℤ × ℚ :=
  (a.id, a.date, a.initial_amount)

/-- The events' `date_created` fields form a non-decreasing chain, starting
from the given last-interest date when there is one (`none` corresponds to
a fresh calculator).  This is the spec's precondition that the datastore
yields events in ascending date order. -/
def last_ok : Option ℤ → List Event → Bool
  | _, [] => true
  | none, e :: rest => last_ok (some e.date_created) rest
  | some l, e :: rest =>
      decide (l ≤ e.date_created) && last_ok (some e.date_created) rest

/-- The joint state invariant maintained by the calculator on well-formed
input: `overall_advance_balance` is the sum of the advances' balances, and
every balance and aggregate is non-negative. -/
def LedgerInv (s : LedgerState) : Prop :=
  s.overall_advance_balance = sum_balances s.advances ∧
  (∀ a ∈ s.advances, 0 ≤ a.current_balance) ∧
  0 ≤ s.overall_interest_payable_balance ∧
  0 ≤ s.overall_interest_paid ∧
  0 ≤ s.overall_payments_for_future

instance (s : LedgerState) : Decidable (LedgerInv s) := by
  unfold LedgerInv; infer_instance

deriving instance DecidableEq for Except

/-! ## Helper lemmas about the offset primitive -/

theorem ssl_diff (a b : ℚ) :
    (subtract_smaller_from_larger a b).1 - (subtract_smaller_from_larger a b).2
      = a - b := by
  unfold subtract_smaller_from_larger
  split <;> simp

theorem ssl_nonneg (a b : ℚ) (ha : 0 ≤ a) (hb : 0 ≤ b) :
    0 ≤ (subtract_smaller_from_larger a b).1 ∧
    0 ≤ (subtract_smaller_from_larger a b).2 := by
  unfold subtract_smaller_from_larger
  split <;> constructor <;> simp <;> linarith

theorem ssl_zero (a b : ℚ) :
    (subtract_smaller_from_larger a b).1 = 0 ∨
    (subtract_smaller_from_larger a b).2 = 0 := by
  unfold subtract_smaller_from_larger
  split <;> simp

theorem ssl_of_lt {a b : ℚ} (h : a < b) :
    subtract_smaller_from_larger a b = (0, b - a) := by
  unfold subtract_smaller_from_larger
  simp [h]

theorem ssl_of_not_lt {a b : ℚ} (h : ¬ a < b) :
    subtract_smaller_from_larger a b = (a - b, 0) := by
  unfold subtract_smaller_from_larger
  simp [h]

/-- C7: `subtract_smaller_from_larger x y` mirrors
`subtract_smaller_from_larger y x` with its components swapped, and
concretely returns `(0, y - x)` when `x < y` and `(x - y, 0)` otherwise,
the pair following the order of the inputs. -/
theorem C7_theorem (x y : ℚ) (hx : 0 ≤ x) (hy : 0 ≤ y) :
    subtract_smaller_from_larger x y =
      (subtract_smaller_from_larger y x).swap ∧
    (x < y → subtract_smaller_from_larger x y = (0, y - x)) ∧
    (¬ x < y → subtract_smaller_from_larger x y = (x - y, 0)) := by
  refine ⟨?_, fun h => ssl_of_lt h, fun h => ssl_of_not_lt h⟩
  rcases lt_trichotomy x y with h | h | h
  · rw [ssl_of_lt h, ssl_of_not_lt (not_lt.mpr (le_of_lt h))]; rfl
  · subst h; rw [ssl_of_not_lt (lt_irrefl x)]; simp
  · rw [ssl_of_not_lt (not_lt.mpr (le_of_lt h)), ssl_of_lt h]; rfl

/-- Witness for C7 at the concrete input `x = 2`, `y = 5`. -/
theorem C7_witness : subtract_smaller_from_larger 2 5 = (0, 5 - 2) :=
  (C7_theorem 2 5 (by decide) (by decide)).2.1 (by decide)

/-- C9: the pair returned by `subtract_smaller_from_larger a b` preserves
the difference `a - b`, and at least one component is exactly zero. -/
theorem C9_theorem (a b : ℚ) (ha : 0 ≤ a) (hb : 0 ≤ b) :
    (subtract_smaller_from_larger a b).1 - (subtract_smaller_from_larger a b).2
      = a - b ∧
    ((subtract_smaller_from_larger a b).1 = 0 ∨
     (subtract_smaller_from_larger a b).2 = 0) :=
  ⟨ssl_diff a b, ssl_zero a b⟩

/-- Witness for C9 at the concrete input `a = 3`, `b = 1`. -/
theorem C9_witness :
    (subtract_smaller_from_larger 3 1).1 - (subtract_smaller_from_larger 3 1).2
      = 3 - 1 ∧
    ((subtract_smaller_from_larger 3 1).1 = 0 ∨
     (subtract_smaller_from_larger 3 1).2 = 0) :=
  C9_theorem 3 1 (by decide) (by decide)

/-! ## Concrete scenario claims -/

unseal Rat.add Rat.mul Rat.sub Rat.inv in
/-- C1 counterexample: on the single advance of 1000 dated 2023-01-01 with
cutoff 2023-01-11 and rate 0.00035, the computation ends with
`overall_interest_payable_balance = 77/20 = 3.85`, not the claimed 3.50:
the final accrual runs to `end_date + 1 day` (2023-01-12), which is 11 days
after the advance, not 10. -/
theorem C1_counterexample :
    Except.map (fun s => s.overall_interest_payable_balance)
      (calculate_balances default_rate (days_from_civil 2023 1 11)
        [{ id := 1, type := "advance", amount := 1000,
           date_created := days_from_civil 2023 1 1 }])
      = Except.ok (77 / 20) ∧ ¬ ((77 : ℚ) / 20 = 35 / 10) := by
  decide

unseal Rat.add Rat.mul Rat.sub Rat.inv in
/-- C1 (amended): on the single advance of 1000 dated 2023-01-01 with
cutoff 2023-01-11 and rate 0.00035, the computation ends with
`overall_interest_payable_balance = 3.85` (11 accrual days, because the
final accrual boundary is `end_date + 1 day`), `overall_advance_balance =
1000` and `overall_interest_paid = 0`. -/
theorem C1_theorem :
    calculate_balances default_rate (days_from_civil 2023 1 11)
        [{ id := 1, type := "advance", amount := 1000,
           date_created := days_from_civil 2023 1 1 }]
      = Except.ok
        { overall_advance_balance := 1000
          overall_interest_payable_balance := 77 / 20
          overall_interest_paid := 0
          overall_payments_for_future := 0
          last_interest_date_calculated := some (days_from_civil 2023 1 12)
          advances := [{ id := 1, date := days_from_civil 2023 1 1,
                         initial_amount := 1000, current_balance := 1000 }] } := by
  decide

unseal Rat.add Rat.mul Rat.sub Rat.inv in
/-- C5: a payment of 500 on 2023-01-01 before any advance leaves
`overall_payments_for_future = 500`; the subsequent advance of 300 on
2023-01-02 is recorded with `initial_amount = 300` and
`current_balance = 0`, and the credit drops to 200. -/
theorem C5_theorem :
    (payment_event_handler default_rate init_state
        { id := 1, type := "payment", amount := 500,
          date_created := days_from_civil 2023 1 1 }).overall_payments_for_future
      = 500 ∧
    (advance_event_handler default_rate
        (payment_event_handler default_rate init_state
          { id := 1, type := "payment", amount := 500,
            date_created := days_from_civil 2023 1 1 })
        { id := 2, type := "advance", amount := 300,
          date_created := days_from_civil 2023 1 2 }).advances
      = [{ id := 2, date := days_from_civil 2023 1 2, initial_amount := 300,
           current_balance := 0 }] ∧
    (advance_event_handler default_rate
        (payment_event_handler default_rate init_state
          { id := 1, type := "payment", amount := 500,
            date_created := days_from_civil 2023 1 1 })
        { id := 2, type := "advance", amount := 300,
          date_created := days_from_civil 2023 1 2 }).overall_payments_for_future
      = 200 := by
  refine ⟨by decide, by decide, by decide⟩

/-! ## Invalid event kinds (C2) -/

theorem process_events_error (rate : ℚ) :
    ∀ (evs : List Event) (s : LedgerState),
      (∃ e ∈ evs, e.type ≠ "advance" ∧ e.type ≠ "payment") →
      process_events rate s evs = Except.error LedgerError.invalidEventKind := by
  intro evs
  induction evs with
  | nil => intro s h; rcases h with ⟨e, he, _⟩; cases he
  | cons e rest ih =>
    intro s h
    by_cases ha : e.type = "advance"
    · rcases h with ⟨f, hf, hf2⟩
      rcases List.mem_cons.mp hf with rfl | hfrest
      · exact absurd ha hf2.1
      · simp only [process_events, event_step, if_pos ha]
        exact ih _ ⟨f, hfrest, hf2⟩
    · by_cases hp : e.type = "payment"
      · rcases h with ⟨f, hf, hf2⟩
        rcases List.mem_cons.mp hf with rfl | hfrest
        · exact absurd hp hf2.2
        · simp only [process_events, event_step, if_neg ha, if_pos hp]
          exact ih _ ⟨f, hfrest, hf2⟩
      · simp only [process_events, event_step, if_neg ha, if_neg hp]

/-- C2: whenever the stream contains an event whose type is neither
`"advance"` nor `"payment"`, `calculate_balances` fails with
`invalidEventKind` (the `KeyError` from the handler table, the spec's
`InvalidEventKind`) and returns no state. -/
theorem C2_theorem (rate : ℚ) (end_date : ℤ) (events : List Event)
    (h : ∃ e ∈ events, e.type ≠ "advance" ∧ e.type ≠ "payment") :
    calculate_balances rate end_date events
      = Except.error LedgerError.invalidEventKind := by
  unfold calculate_balances
  rw [process_events_error rate events init_state h]

/-- Witness for C2: a stream holding a single `"transfer"` event. -/
theorem C2_witness :
    calculate_balances default_rate 0
        [{ id := 1, type := "transfer", amount := 5, date_created := 0 }]
      = Except.error LedgerError.invalidEventKind :=
  C2_theorem default_rate 0 _ (by decide)

/-! ## Frame lemmas for the handlers -/

theorem calc_interest_frame (rate : ℚ) (s : LedgerState) (d : ℤ) :
    (calculate_interest_to_pay rate s d).overall_advance_balance
      = s.overall_advance_balance ∧
    (calculate_interest_to_pay rate s d).overall_interest_paid
      = s.overall_interest_paid ∧
    (calculate_interest_to_pay rate s d).overall_payments_for_future
      = s.overall_payments_for_future ∧
    (calculate_interest_to_pay rate s d).advances = s.advances ∧
    (calculate_interest_to_pay rate s d).last_interest_date_calculated
      = some d := by
  unfold calculate_interest_to_pay
  rcases s.last_interest_date_calculated with _ | l <;> simp

theorem pwab_frame (s : LedgerState) (a : ℚ) :
    (pay_with_account_balance s a).1.overall_advance_balance
      = s.overall_advance_balance ∧
    (pay_with_account_balance s a).1.overall_interest_payable_balance
      = s.overall_interest_payable_balance ∧
    (pay_with_account_balance s a).1.overall_interest_paid
      = s.overall_interest_paid ∧
    (pay_with_account_balance s a).1.advances = s.advances ∧
    (pay_with_account_balance s a).1.last_interest_date_calculated
      = s.last_interest_date_calculated := by
  unfold pay_with_account_balance
  split <;> simp

theorem pay_interest_frame (s : LedgerState) (p : ℚ) :
    (pay_interest s p).1.overall_advance_balance = s.overall_advance_balance ∧
    (pay_interest s p).1.overall_payments_for_future
      = s.overall_payments_for_future ∧
    (pay_interest s p).1.advances = s.advances ∧
    (pay_interest s p).1.last_interest_date_calculated
      = s.last_interest_date_calculated := by
  unfold pay_interest
  split <;> simp

/-- C6: interest accrual.  A first call to `_calculate_interest_to_pay`
(no `last_interest_date_calculated` yet) adds no interest and only records
the date; any later call adds `overall_advance_balance * rate * days` for
the integer day gap (possibly zero) and then updates the date.  Inside
`_advance_event_handler` the accrual happens before the event's own amount
is added to the principal: the interest after the handler is computed from
the pre-event `overall_advance_balance`, and a first-call advance adds no
interest at all. -/
theorem C6_theorem (rate : ℚ) (s : LedgerState) (d : ℤ) (e : Event) :
    (s.last_interest_date_calculated = none →
      calculate_interest_to_pay rate s d
        = { s with last_interest_date_calculated := some d }) ∧
    (∀ l, s.last_interest_date_calculated = some l →
      calculate_interest_to_pay rate s d
        = { s with
            overall_interest_payable_balance :=
              s.overall_interest_payable_balance +
                s.overall_advance_balance * rate * (d - l)
            last_interest_date_calculated := some d }) ∧
    (∀ l, s.last_interest_date_calculated = some l →
      (advance_event_handler rate s e).overall_interest_payable_balance
        = s.overall_interest_payable_balance +
            s.overall_advance_balance * rate * (e.date_created - l)) ∧
    (s.last_interest_date_calculated = none →
      (advance_event_handler rate s e).overall_interest_payable_balance
        = s.overall_interest_payable_balance) := by
  refine ⟨?_, ?_, ?_, ?_⟩
  · intro h; unfold calculate_interest_to_pay; rw [h]
  · intro l h; unfold calculate_interest_to_pay; rw [h]
  · intro l h
    unfold advance_event_handler
    have hf := (pwab_frame (calculate_interest_to_pay rate s e.date_created)
      e.amount).2.1
    simp only [hf]
    unfold calculate_interest_to_pay
    rw [h]
  · intro h
    unfold advance_event_handler
    have hf := (pwab_frame (calculate_interest_to_pay rate s e.date_created)
      e.amount).2.1
    simp only [hf]
    unfold calculate_interest_to_pay
    rw [h]

/-- Witness for C6 at a concrete state with a previous accrual date 5,
accruing to date 8 with rate 2 and principal 100. -/
theorem C6_witness :
    calculate_interest_to_pay 2
        { overall_advance_balance := 100
          overall_interest_payable_balance := 7
          overall_interest_paid := 0
          overall_payments_for_future := 0
          last_interest_date_calculated := some 5
          advances := [] } 8
      = { overall_advance_balance := 100
          overall_interest_payable_balance := 7 + 100 * 2 * (8 - 5)
          overall_interest_paid := 0
          overall_payments_for_future := 0
          last_interest_date_calculated := some 8
          advances := [] } :=
  (C6_theorem 2
    { overall_advance_balance := 100
      overall_interest_payable_balance := 7
      overall_interest_paid := 0
      overall_payments_for_future := 0
      last_interest_date_calculated := some 5
      advances := [] } 8
    { id := 1, type := "advance", amount := 50, date_created := 8 }).2.1 5 rfl

theorem pal_static (amt : ℚ) : ∀ l : List Advance,
    ((pay_advanced_list l amt).1).map advance_static = l.map advance_static := by
  intro l
  induction l generalizing amt with
  | nil => simp [pay_advanced_list]
  | cons a rest ih =>
    unfold pay_advanced_list
    split <;> simp [advance_static, ih]

theorem pab_strip (s : LedgerState) (p : ℚ) :
    ((pay_advanced_balances s p).1.advances).map advance_static
      = s.advances.map advance_static := by
  simp only [pay_advanced_balances]
  split <;> simp [pal_static]

theorem pay_rest_strip (s : LedgerState) (p : ℚ) :
    ((pay_rest s p).advances).map advance_static
      = s.advances.map advance_static := by
  simp only [pay_rest]
  split
  · split
    · exact pab_strip s p
    · simpa using pab_strip s p
  · simp

theorem pay_strip (s : LedgerState) (p : ℚ) :
    ((pay s p).advances).map advance_static = s.advances.map advance_static := by
  simp only [pay]
  split
  · split
    · rw [(pay_interest_frame s p).2.2.1]
    · rw [pay_rest_strip, (pay_interest_frame s p).2.2.1]
  · exact pay_rest_strip s p

/-- C10: processing a Payment event rewrites no advance record except its
`current_balance`: the list of `(id, date, initial_amount)` triples of
`self.advances` is unchanged (so no record is appended, removed, or
reordered), and the list keeps its length.  All other mutation by
`_payment_event_handler` is confined to the five aggregate attributes
(`overall_interest_payable_balance`, `overall_interest_paid`,
`overall_advance_balance`, `overall_payments_for_future`,
`last_interest_date_calculated`), which are the only other fields of the
state. -/
theorem C10_theorem (rate : ℚ) (s : LedgerState) (e : Event) :
    ((payment_event_handler rate s e).advances).map advance_static
      = s.advances.map advance_static ∧
    (payment_event_handler rate s e).advances.length = s.advances.length := by
  have h2 : ((payment_event_handler rate s e).advances).map advance_static
      = s.advances.map advance_static := by
    simp only [payment_event_handler]
    rw [pay_strip, (calc_interest_frame rate s e.date_created).2.2.2.1]
  refine ⟨h2, ?_⟩
  have := congrArg List.length h2
  simpa using this

/-! ## FIFO payment allocation (C4) -/

theorem ssl_fst_of_le {a b : ℚ} (h : a ≤ b) :
    (subtract_smaller_from_larger a b).1 = 0 := by
  rcases lt_or_eq_of_le h with hlt | heq
  · rw [ssl_of_lt hlt]
  · rw [ssl_of_not_lt (by rw [heq]; exact lt_irrefl b)]
    simp [heq]

theorem pay_of_no_interest (s : LedgerState) (p : ℚ)
    (h : s.overall_interest_payable_balance = 0) : pay s p = pay_rest s p := by
  simp [pay, h]

theorem pay_rest_advances (s : LedgerState) (p : ℚ)
    (h : s.overall_advance_balance ≠ 0) :
    (pay_rest s p).advances = (pay_advanced_list s.advances p).1 := by
  simp only [pay_rest, pay_advanced_balances, if_pos h]
  split <;> (try split) <;> rfl

theorem pal_pair_small (A B : Advance) (p : ℚ) (hA : 0 < A.current_balance)
    (hlt : p < A.current_balance) :
    pay_advanced_list [A, B] p
      = ([{ A with current_balance := A.current_balance - p }, B], 0) := by
  by_cases hp0 : p = 0
  · subst hp0
    simp [pay_advanced_list]
  · have hguard : A.current_balance ≠ 0 ∧ p ≠ 0 := ⟨ne_of_gt hA, hp0⟩
    have hs : subtract_smaller_from_larger A.current_balance p
        = (A.current_balance - p, 0) := ssl_of_not_lt (not_lt.mpr (le_of_lt hlt))
    simp only [pay_advanced_list, if_pos hguard, hs]
    simp [pay_advanced_list]

/-- C4: with two advance records A (older) and B (newer) both of positive
balance, zero interest payable, and `overall_advance_balance` consistent
with the two balances, a Payment of `p < A.current_balance` rewrites the
list to `[A with balance reduced by p, B]` — and whatever the payment
amount, B's balance is untouched whenever A's balance is still positive
afterwards. -/
theorem C4_theorem (A B : Advance) (s : LedgerState) (p : ℚ)
    (hA : 0 < A.current_balance) (hB : 0 < B.current_balance)
    (hadv : s.advances = [A, B])
    (hint : s.overall_interest_payable_balance = 0)
    (hcons : s.overall_advance_balance
      = A.current_balance + B.current_balance)
    (hp : 0 ≤ p) :
    (p < A.current_balance →
      (pay s p).advances
        = [{ A with current_balance := A.current_balance - p }, B]) ∧
    (∀ A2 B2 rest, (pay s p).advances = A2 :: B2 :: rest →
      0 < A2.current_balance → B2.current_balance = B.current_balance) := by
  have hne : s.overall_advance_balance ≠ 0 := by
    rw [hcons]; exact ne_of_gt (add_pos hA hB)
  have hpay : (pay s p).advances = (pay_advanced_list [A, B] p).1 := by
    rw [pay_of_no_interest s p hint, pay_rest_advances s p hne, hadv]
  have hfirst : p < A.current_balance →
      (pay s p).advances
        = [{ A with current_balance := A.current_balance - p }, B] := by
    intro hlt
    rw [hpay, pal_pair_small A B p hA hlt]
  refine ⟨hfirst, ?_⟩
  intro A2 B2 rest heq hA2
  by_cases hle : A.current_balance ≤ p
  · have hp0 : p ≠ 0 := by
      intro h; rw [h] at hle; exact absurd hA (not_lt.mpr hle)
    have hguard : A.current_balance ≠ 0 ∧ p ≠ 0 := ⟨ne_of_gt hA, hp0⟩
    rw [hpay] at heq
    simp only [pay_advanced_list, if_pos hguard] at heq
    simp only [List.cons.injEq] at heq
    have hA2eq : A2 = { A with
        current_balance := (subtract_smaller_from_larger A.current_balance p).1 } :=
      heq.1.symm
    rw [hA2eq] at hA2
    simp only [ssl_fst_of_le hle] at hA2
    exact absurd hA2 (lt_irrefl 0)
  · push_neg at hle
    rw [hfirst hle] at heq
    simp only [List.cons.injEq] at heq
    rw [← heq.2.1]

unseal Rat.add Rat.mul Rat.sub Rat.inv in
/-- Witness for C4: A of balance 100, B of balance 50, payment 30. -/
theorem C4_witness :
    (pay
        { overall_advance_balance := 150
          overall_interest_payable_balance := 0
          overall_interest_paid := 0
          overall_payments_for_future := 0
          last_interest_date_calculated := some 1
          advances := [{ id := 1, date := 0, initial_amount := 100,
                         current_balance := 100 },
                       { id := 2, date := 1, initial_amount := 50,
                         current_balance := 50 }] } 30).advances
      = [{ id := 1, date := 0, initial_amount := 100,
           current_balance := (100 : ℚ) - 30 },
         { id := 2, date := 1, initial_amount := 50, current_balance := 50 }] :=
  (C4_theorem
    { id := 1, date := 0, initial_amount := 100, current_balance := 100 }
    { id := 2, date := 1, initial_amount := 50, current_balance := 50 }
    _ 30 (by decide) (by decide) rfl rfl (by decide) (by decide)).1 (by decide)

/-! ## Sum and loop lemmas for the ledger invariant (C3, C8) -/

theorem sum_balances_append (l : List Advance) (a : Advance) :
    sum_balances (l ++ [a]) = sum_balances l + a.current_balance := by
  induction l with
  | nil => simp [sum_balances]
  | cons b rest ih =>
    simp only [List.cons_append, sum_balances, List.append_eq]
    rw [ih]
    ring

theorem sum_balances_nonneg (l : List Advance)
    (h : ∀ a ∈ l, 0 ≤ a.current_balance) : 0 ≤ sum_balances l := by
  induction l with
  | nil => exact le_refl 0
  | cons b rest ih =>
    simp only [sum_balances]
    have h1 := h b (List.mem_cons_self b rest)
    have h2 := ih (fun a ha => h a (List.mem_cons_of_mem b ha))
    linarith

theorem sum_balances_eq_zero (l : List Advance)
    (h : ∀ a ∈ l, a.current_balance = 0) : sum_balances l = 0 := by
  induction l with
  | nil => rfl
  | cons b rest ih =>
    simp only [sum_balances]
    rw [h b (List.mem_cons_self b rest),
      ih (fun a ha => h a (List.mem_cons_of_mem b ha))]
    norm_num

theorem pal_diff : ∀ (l : List Advance) (amt : ℚ),
    sum_balances (pay_advanced_list l amt).1 - (pay_advanced_list l amt).2
      = sum_balances l - amt := by
  intro l
  induction l with
  | nil => intro amt; simp [pay_advanced_list]
  | cons a rest ih =>
    intro amt
    simp only [pay_advanced_list]
    split
    · simp only [sum_balances]
      have hd := ssl_diff a.current_balance amt
      have hr := ih (subtract_smaller_from_larger a.current_balance amt).2
      linarith
    · simp only [sum_balances]
      have hr := ih amt
      linarith

theorem pal_zero (l : List Advance) : pay_advanced_list l 0 = (l, 0) := by
  induction l with
  | nil => rfl
  | cons a rest ih => simp [pay_advanced_list, ih]

theorem pal_nonneg : ∀ (l : List Advance) (amt : ℚ), 0 ≤ amt →
    (∀ a ∈ l, 0 ≤ a.current_balance) →
    0 ≤ (pay_advanced_list l amt).2 ∧
    ∀ a ∈ (pay_advanced_list l amt).1, 0 ≤ a.current_balance := by
  intro l
  induction l with
  | nil => intro amt h _; exact ⟨h, by simp [pay_advanced_list]⟩
  | cons a rest ih =>
    intro amt hamt hl
    have ha := hl a (List.mem_cons_self a rest)
    have hrest : ∀ b ∈ rest, 0 ≤ b.current_balance :=
      fun b hb => hl b (List.mem_cons_of_mem a hb)
    simp only [pay_advanced_list]
    split
    · have hs := ssl_nonneg a.current_balance amt ha hamt
      have hrec := ih _ hs.2 hrest
      refine ⟨hrec.1, ?_⟩
      intro b hb
      rcases List.mem_cons.mp hb with rfl | hb2
      · simpa using hs.1
      · exact hrec.2 b hb2
    · have hrec := ih amt hamt hrest
      refine ⟨hrec.1, ?_⟩
      intro b hb
      rcases List.mem_cons.mp hb with rfl | hb2
      · exact ha
      · exact hrec.2 b hb2

theorem pal_exhaust : ∀ (l : List Advance) (amt : ℚ), 0 ≤ amt →
    (∀ a ∈ l, 0 ≤ a.current_balance) →
    (pay_advanced_list l amt).2 ≠ 0 →
    ∀ a ∈ (pay_advanced_list l amt).1, a.current_balance = 0 := by
  intro l
  induction l with
  | nil => intro amt _ _ _ a ha; simp [pay_advanced_list] at ha
  | cons a rest ih =>
    intro amt hamt hl hne b hb
    have ha := hl a (List.mem_cons_self a rest)
    have hrest : ∀ c ∈ rest, 0 ≤ c.current_balance :=
      fun c hc => hl c (List.mem_cons_of_mem a hc)
    by_cases hg : a.current_balance ≠ 0 ∧ amt ≠ 0
    · simp only [pay_advanced_list, if_pos hg] at hne hb
      have hs2ne : (subtract_smaller_from_larger a.current_balance amt).2 ≠ 0 := by
        intro h0
        rw [h0, pal_zero] at hne
        exact hne rfl
      have hfst : (subtract_smaller_from_larger a.current_balance amt).1 = 0 := by
        rcases ssl_zero a.current_balance amt with h | h
        · exact h
        · exact absurd h hs2ne
      rcases List.mem_cons.mp hb with rfl | hb2
      · simpa [hfst]
      · exact ih _ (ssl_nonneg _ _ ha hamt).2 hrest hne b hb2
    · simp only [pay_advanced_list, if_neg hg] at hne hb
      rcases List.mem_cons.mp hb with rfl | hb2
      · rcases not_and_or.mp hg with h | h
        · exact not_not.mp h
        · rw [not_not.mp h, pal_zero] at hne
          exact absurd rfl hne
      · exact ih amt hamt hrest hne b hb2

/-! ## Invariant preservation through the waterfall -/

theorem pab_inv (s : LedgerState) (p : ℚ)
    (hcons : s.overall_advance_balance = sum_balances s.advances)
    (hbal : ∀ a ∈ s.advances, 0 ≤ a.current_balance) (hp : 0 ≤ p) :
    (pay_advanced_balances s p).1.overall_advance_balance
      = sum_balances (pay_advanced_balances s p).1.advances ∧
    (∀ a ∈ (pay_advanced_balances s p).1.advances, 0 ≤ a.current_balance) ∧
    0 ≤ (pay_advanced_balances s p).2 ∧
    (pay_advanced_balances s p).1.overall_interest_payable_balance
      = s.overall_interest_payable_balance ∧
    (pay_advanced_balances s p).1.overall_interest_paid
      = s.overall_interest_paid ∧
    (pay_advanced_balances s p).1.overall_payments_for_future
      = s.overall_payments_for_future ∧
    (pay_advanced_balances s p).1.last_interest_date_calculated
      = s.last_interest_date_calculated := by
  have hnn := pal_nonneg s.advances p hp hbal
  simp only [pay_advanced_balances]
  split
  · rename_i hne
    have hzero := pal_exhaust s.advances p hp hbal hne
    exact ⟨(sum_balances_eq_zero _ hzero).symm, hnn.2, hnn.1, rfl, rfl, rfl, rfl⟩
  · rename_i hz
    have h2 : (pay_advanced_list s.advances p).2 = 0 := not_not.mp hz
    refine ⟨?_, hnn.2, ?_, rfl, rfl, rfl, rfl⟩
    · have hd := pal_diff s.advances p
      rw [h2] at hd
      show s.overall_advance_balance - p
        = sum_balances (pay_advanced_list s.advances p).1
      rw [hcons]
      linarith
    · show (0:ℚ) ≤ (pay_advanced_list s.advances p).2
      rw [h2]

theorem pay_rest_inv (s : LedgerState) (p : ℚ)
    (hcons : s.overall_advance_balance = sum_balances s.advances)
    (hbal : ∀ a ∈ s.advances, 0 ≤ a.current_balance)
    (hfut : 0 ≤ s.overall_payments_for_future)
    (hp : 0 ≤ p) :
    (pay_rest s p).overall_advance_balance
      = sum_balances (pay_rest s p).advances ∧
    (∀ a ∈ (pay_rest s p).advances, 0 ≤ a.current_balance) ∧
    0 ≤ (pay_rest s p).overall_payments_for_future ∧
    (pay_rest s p).overall_interest_payable_balance
      = s.overall_interest_payable_balance ∧
    (pay_rest s p).overall_interest_paid = s.overall_interest_paid ∧
    (pay_rest s p).last_interest_date_calculated
      = s.last_interest_date_calculated := by
  simp only [pay_rest]
  split
  · obtain ⟨b1, b2, b3, b4, b5, b6, b7⟩ := pab_inv s p hcons hbal hp
    split
    · exact ⟨b1, b2, by rw [b6]; exact hfut, b4, b5, b7⟩
    · refine ⟨b1, b2, ?_, b4, b5, b7⟩
      show (0:ℚ) ≤ (pay_advanced_balances s p).1.overall_payments_for_future
        + (pay_advanced_balances s p).2
      rw [b6]
      exact add_nonneg hfut b3
  · exact ⟨hcons, hbal, add_nonneg hfut hp, rfl, rfl, rfl⟩

theorem pay_interest_inv (s : LedgerState) (p : ℚ) (hp : 0 ≤ p)
    (hint : 0 ≤ s.overall_interest_payable_balance)
    (hpaid : 0 ≤ s.overall_interest_paid) :
    0 ≤ (pay_interest s p).1.overall_interest_payable_balance ∧
    0 ≤ (pay_interest s p).1.overall_interest_paid ∧
    0 ≤ (pay_interest s p).2 := by
  simp only [pay_interest]
  split
  · rename_i hge
    refine ⟨le_refl 0, add_nonneg hpaid hint, ?_⟩
    show (0:ℚ) ≤ p - s.overall_interest_payable_balance
    linarith
  · rename_i hlt
    push_neg at hlt
    refine ⟨?_, add_nonneg hpaid hp, le_refl 0⟩
    show (0:ℚ) ≤ s.overall_interest_payable_balance - p
    linarith

theorem pay_inv (s : LedgerState) (p : ℚ) (h : LedgerInv s) (hp : 0 ≤ p) :
    LedgerInv (pay s p) ∧
    (pay s p).last_interest_date_calculated
      = s.last_interest_date_calculated := by
  obtain ⟨c1, c2, c3, c4, c5⟩ := h
  simp only [pay]
  split
  · obtain ⟨f1, f2, f3, f4⟩ := pay_interest_frame s p
    obtain ⟨i1, i2, i3⟩ := pay_interest_inv s p hp c3 c4
    split
    · exact ⟨⟨by rw [f1, f3]; exact c1, by rw [f3]; exact c2, i1, i2,
        by rw [f2]; exact c5⟩, f4⟩
    · obtain ⟨r1, r2, r3, r4, r5, r6⟩ := pay_rest_inv (pay_interest s p).1
        (pay_interest s p).2 (by rw [f1, f3]; exact c1) (by rw [f3]; exact c2)
        (by rw [f2]; exact c5) i3
      exact ⟨⟨r1, r2, by rw [r4]; exact i1, by rw [r5]; exact i2, r3⟩,
        by rw [r6, f4]⟩
  · obtain ⟨r1, r2, r3, r4, r5, r6⟩ := pay_rest_inv s p c1 c2 c5 hp
    exact ⟨⟨r1, r2, by rw [r4]; exact c3, by rw [r5]; exact c4, r3⟩, r6⟩

theorem calc_inv (rate : ℚ) (s : LedgerState) (d : ℤ) (hrate : 0 ≤ rate)
    (h : LedgerInv s)
    (hlast : ∀ l, s.last_interest_date_calculated = some l → l ≤ d) :
    LedgerInv (calculate_interest_to_pay rate s d) := by
  obtain ⟨c1, c2, c3, c4, c5⟩ := h
  cases hl : s.last_interest_date_calculated with
  | none =>
    simp only [calculate_interest_to_pay, hl]
    exact ⟨c1, c2, c3, c4, c5⟩
  | some l =>
    simp only [calculate_interest_to_pay, hl]
    refine ⟨c1, c2, ?_, c4, c5⟩
    show (0:ℚ) ≤ s.overall_interest_payable_balance +
      s.overall_advance_balance * rate * ((d : ℚ) - (l : ℚ))
    have hbal : 0 ≤ s.overall_advance_balance := by
      rw [c1]; exact sum_balances_nonneg _ c2
    have hdl : (l : ℚ) ≤ (d : ℚ) := by
      exact_mod_cast hlast l hl
    have hterm : 0 ≤ s.overall_advance_balance * rate * ((d : ℚ) - (l : ℚ)) :=
      mul_nonneg (mul_nonneg hbal hrate) (by linarith)
    linarith

theorem advance_inv (rate : ℚ) (s : LedgerState) (e : Event) (hrate : 0 ≤ rate)
    (h : LedgerInv s) (hamt : 0 ≤ e.amount)
    (hlast : ∀ l, s.last_interest_date_calculated = some l →
      l ≤ e.date_created) :
    LedgerInv (advance_event_handler rate s e) ∧
    (advance_event_handler rate s e).last_interest_date_calculated
      = some e.date_created := by
  have h1 : LedgerInv (calculate_interest_to_pay rate s e.date_created) :=
    calc_inv rate s e.date_created hrate h hlast
  obtain ⟨c1, c2, c3, c4, c5⟩ := h1
  obtain ⟨w1, w2, w3, w4, w5⟩ :=
    pwab_frame (calculate_interest_to_pay rate s e.date_created) e.amount
  have hlcalc := (calc_interest_frame rate s e.date_created).2.2.2.2
  have hr : 0 ≤ (pay_with_account_balance
        (calculate_interest_to_pay rate s e.date_created) e.amount).2 ∧
      0 ≤ (pay_with_account_balance
        (calculate_interest_to_pay rate s e.date_created)
        e.amount).1.overall_payments_for_future := by
    simp only [pay_with_account_balance]
    split
    · constructor
      · exact (ssl_nonneg _ _ hamt c5).1
      · show (0:ℚ) ≤ (subtract_smaller_from_larger e.amount
          (calculate_interest_to_pay rate s
            e.date_created).overall_payments_for_future).2
        exact (ssl_nonneg _ _ hamt c5).2
    · exact ⟨hamt, c5⟩
  simp only [advance_event_handler]
  refine ⟨⟨?_, ?_, ?_, ?_, ?_⟩, ?_⟩
  · show (pay_with_account_balance
        (calculate_interest_to_pay rate s e.date_created)
        e.amount).1.overall_advance_balance +
      (pay_with_account_balance
        (calculate_interest_to_pay rate s e.date_created) e.amount).2
      = sum_balances ((pay_with_account_balance
          (calculate_interest_to_pay rate s e.date_created)
          e.amount).1.advances ++ [_])
    rw [sum_balances_append, w4, w1, c1]
  · intro a ha
    rcases List.mem_append.mp ha with ha2 | ha2
    · rw [w4] at ha2
      exact c2 a ha2
    · rcases List.mem_singleton.mp ha2 with rfl
      exact hr.1
  · show (0:ℚ) ≤ (pay_with_account_balance
      (calculate_interest_to_pay rate s e.date_created)
      e.amount).1.overall_interest_payable_balance
    rw [w2]; exact c3
  · show (0:ℚ) ≤ (pay_with_account_balance
      (calculate_interest_to_pay rate s e.date_created)
      e.amount).1.overall_interest_paid
    rw [w3]; exact c4
  · exact hr.2
  · show (pay_with_account_balance
        (calculate_interest_to_pay rate s e.date_created)
        e.amount).1.last_interest_date_calculated = some e.date_created
    rw [w5, hlcalc]

theorem payment_inv (rate : ℚ) (s : LedgerState) (e : Event) (hrate : 0 ≤ rate)
    (h : LedgerInv s) (hamt : 0 ≤ e.amount)
    (hlast : ∀ l, s.last_interest_date_calculated = some l →
      l ≤ e.date_created) :
    LedgerInv (payment_event_handler rate s e) ∧
    (payment_event_handler rate s e).last_interest_date_calculated
      = some e.date_created := by
  have h1 : LedgerInv (calculate_interest_to_pay rate s e.date_created) :=
    calc_inv rate s e.date_created hrate h hlast
  have h2 := pay_inv (calculate_interest_to_pay rate s e.date_created)
    e.amount h1 hamt
  refine ⟨h2.1, ?_⟩
  show (pay (calculate_interest_to_pay rate s e.date_created)
    e.amount).last_interest_date_calculated = some e.date_created
  rw [h2.2, (calc_interest_frame rate s e.date_created).2.2.2.2]

theorem event_step_inv (rate : ℚ) (s s' : LedgerState) (e : Event)
    (hrate : 0 ≤ rate) (h : LedgerInv s) (hamt : 0 ≤ e.amount)
    (hlast : ∀ l, s.last_interest_date_calculated = some l →
      l ≤ e.date_created)
    (hstep : event_step rate s e = Except.ok s') :
    LedgerInv s' ∧
    s'.last_interest_date_calculated = some e.date_created := by
  unfold event_step at hstep
  split_ifs at hstep with h1 h2
  · simp only [Except.ok.injEq] at hstep
    rw [← hstep]
    exact advance_inv rate s e hrate h hamt hlast
  · simp only [Except.ok.injEq] at hstep
    rw [← hstep]
    exact payment_inv rate s e hrate h hamt hlast

theorem process_inv (rate : ℚ) (hrate : 0 ≤ rate) :
    ∀ (evs : List Event) (s s' : LedgerState), LedgerInv s →
      last_ok s.last_interest_date_calculated evs = true →
      (∀ e ∈ evs, 0 ≤ e.amount) →
      process_events rate s evs = Except.ok s' →
      LedgerInv s' ∧
      (∀ l, s'.last_interest_date_calculated = some l →
        s.last_interest_date_calculated = some l ∨
        ∃ e ∈ evs, e.date_created = l) := by
  intro evs
  induction evs with
  | nil =>
    intro s s' h _ _ hp
    simp only [process_events, Except.ok.injEq] at hp
    rw [← hp]
    exact ⟨h, fun l hl => Or.inl hl⟩
  | cons e rest ih =>
    intro s s' h hlok hamts hp
    have hae : 0 ≤ e.amount := hamts e (List.mem_cons_self e rest)
    have harest : ∀ f ∈ rest, 0 ≤ f.amount :=
      fun f hf => hamts f (List.mem_cons_of_mem e hf)
    have hlast : ∀ l, s.last_interest_date_calculated = some l →
        l ≤ e.date_created := by
      intro l hl
      rw [hl] at hlok
      simp only [last_ok, Bool.and_eq_true, decide_eq_true_eq] at hlok
      exact hlok.1
    have hlok_rest : last_ok (some e.date_created) rest = true := by
      cases hl : s.last_interest_date_calculated with
      | none => rw [hl] at hlok; exact hlok
      | some l =>
          rw [hl] at hlok
          simp only [last_ok, Bool.and_eq_true] at hlok
          exact hlok.2
    simp only [process_events] at hp
    cases hstep : event_step rate s e with
    | error err =>
        rw [hstep] at hp
        exact absurd hp (by simp)
    | ok s1 =>
        rw [hstep] at hp
        obtain ⟨h1, hl1⟩ := event_step_inv rate s s1 e hrate h hae hlast hstep
        have hrec := ih s1 s' h1 (by rw [hl1]; exact hlok_rest) harest hp
        refine ⟨hrec.1, ?_⟩
        intro l hl
        rcases hrec.2 l hl with hcase | ⟨f, hf, hfl⟩
        · rw [hl1] at hcase
          simp only [Option.some.injEq] at hcase
          exact Or.inr ⟨e, List.mem_cons_self e rest, hcase⟩
        · exact Or.inr ⟨f, List.mem_cons_of_mem e hf, hfl⟩

theorem last_ok_append (p q : List Event) :
    ∀ o : Option ℤ, last_ok o (p ++ q) = true → last_ok o p = true := by
  induction p with
  | nil => intro o _; cases o <;> rfl
  | cons e p2 ih =>
    intro o h
    cases o with
    | none =>
        simp only [List.cons_append, last_ok] at h ⊢
        exact ih _ h
    | some l =>
        simp only [List.cons_append, last_ok, Bool.and_eq_true] at h ⊢
        exact ⟨h.1, ih _ h.2⟩

theorem init_inv : LedgerInv init_state := by
  refine ⟨rfl, ?_, le_refl 0, le_refl 0, le_refl 0⟩
  intro a ha
  simp [init_state] at ha

/-- C3: for a date-ascending event stream with non-negative amounts and a
non-negative rate, after processing any prefix of the stream — and after
the full run of `calculate_balances`, final accrual included —
`overall_advance_balance` equals the sum of the advances' current
balances. -/
theorem C3_theorem (rate : ℚ) (end_date : ℤ) (events : List Event)
    (hrate : 0 ≤ rate)
    (hsorted : last_ok none events = true)
    (hamts : ∀ e ∈ events, 0 ≤ e.amount) :
    (∀ (p q : List Event) (s' : LedgerState), events = p ++ q →
      process_events rate init_state p = Except.ok s' →
      s'.overall_advance_balance = sum_balances s'.advances) ∧
    (∀ s' : LedgerState, calculate_balances rate end_date events
        = Except.ok s' →
      s'.overall_advance_balance = sum_balances s'.advances) := by
  constructor
  · intro p q s' hpq hrun
    have hsp : last_ok none p = true := by
      rw [hpq] at hsorted
      exact last_ok_append p q none hsorted
    have hams : ∀ e ∈ p, 0 ≤ e.amount := fun e he =>
      hamts e (by rw [hpq]; exact List.mem_append_left q he)
    exact ((process_inv rate hrate p init_state s' init_inv hsp hams hrun).1).1
  · intro s' hrun
    cases hev : process_events rate init_state events with
    | error err =>
        rw [calculate_balances, hev] at hrun
        exact absurd hrun (by simp)
    | ok s0 =>
        rw [calculate_balances, hev] at hrun
        simp only [Except.ok.injEq] at hrun
        have hs0 :=
          (process_inv rate hrate events init_state s0 init_inv hsorted
            hamts hev).1
        obtain ⟨f1, _, _, f4, _⟩ := calc_interest_frame rate s0 (end_date + 1)
        rw [← hrun, f1, f4]
        exact hs0.1

unseal Rat.add Rat.mul Rat.sub Rat.inv in
/-- Witness for C3: advance of 100 on day 0 followed by a payment of 40 on
day 2, checked after the one-event prefix. -/
theorem C3_witness :
    (100 : ℚ) = sum_balances [{ id := 1, date := 0, initial_amount := 100,
                                current_balance := 100 }] :=
  (C3_theorem default_rate 5
    [{ id := 1, type := "advance", amount := 100, date_created := 0 },
     { id := 2, type := "payment", amount := 40, date_created := 2 }]
    (by decide) (by decide) (by decide)).1
    [{ id := 1, type := "advance", amount := 100, date_created := 0 }]
    [{ id := 2, type := "payment", amount := 40, date_created := 2 }]
    { overall_advance_balance := 100
      overall_interest_payable_balance := 0
      overall_interest_paid := 0
      overall_payments_for_future := 0
      last_interest_date_calculated := some 0
      advances := [{ id := 1, date := 0, initial_amount := 100,
                     current_balance := 100 }] }
    rfl (by decide)

/-- C8: for a date-ascending event stream with non-negative amounts, a
non-negative rate, and every event dated no later than the cutoff, after
processing any prefix of the stream — and after the full run of
`calculate_balances`, final accrual included — the interest payable, the
cumulative interest paid, the future-payment credit, and every advance's
current balance are all non-negative. -/
theorem C8_theorem (rate : ℚ) (end_date : ℤ) (events : List Event)
    (hrate : 0 ≤ rate)
    (hsorted : last_ok none events = true)
    (hamts : ∀ e ∈ events, 0 ≤ e.amount)
    (hend : ∀ e ∈ events, e.date_created ≤ end_date) :
    (∀ (p q : List Event) (s' : LedgerState), events = p ++ q →
      process_events rate init_state p = Except.ok s' →
      0 ≤ s'.overall_interest_payable_balance ∧
      0 ≤ s'.overall_interest_paid ∧
      0 ≤ s'.overall_payments_for_future ∧
      ∀ a ∈ s'.advances, 0 ≤ a.current_balance) ∧
    (∀ s' : LedgerState, calculate_balances rate end_date events
        = Except.ok s' →
      0 ≤ s'.overall_interest_payable_balance ∧
      0 ≤ s'.overall_interest_paid ∧
      0 ≤ s'.overall_payments_for_future ∧
      ∀ a ∈ s'.advances, 0 ≤ a.current_balance) := by
  constructor
  · intro p q s' hpq hrun
    have hsp : last_ok none p = true := by
      rw [hpq] at hsorted
      exact last_ok_append p q none hsorted
    have hams : ∀ e ∈ p, 0 ≤ e.amount := fun e he =>
      hamts e (by rw [hpq]; exact List.mem_append_left q he)
    obtain ⟨_, i2, i3, i4, i5⟩ :=
      (process_inv rate hrate p init_state s' init_inv hsp hams hrun).1
    exact ⟨i3, i4, i5, i2⟩
  · intro s' hrun
    cases hev : process_events rate init_state events with
    | error err =>
        rw [calculate_balances, hev] at hrun
        exact absurd hrun (by simp)
    | ok s0 =>
        rw [calculate_balances, hev] at hrun
        simp only [Except.ok.injEq] at hrun
        obtain ⟨hs0, hdates⟩ :=
          process_inv rate hrate events init_state s0 init_inv hsorted
            hamts hev
        have hlast : ∀ l, s0.last_interest_date_calculated = some l →
            l ≤ end_date + 1 := by
          intro l hl
          rcases hdates l hl with hcase | ⟨f, hf, hfl⟩
          · cases hcase
          · have := hend f hf
            omega
        obtain ⟨_, i2, i3, i4, i5⟩ :=
          calc_inv rate s0 (end_date + 1) hrate hs0 hlast
        obtain ⟨_, _, _, f4, _⟩ := calc_interest_frame rate s0 (end_date + 1)
        rw [← hrun]
        exact ⟨i3, i4, i5, i2⟩

unseal Rat.add Rat.mul Rat.sub Rat.inv in
/-- Witness for C8: advance of 200 on day 1, payment of 60 on day 3,
cutoff day 4; the final interest payable and the surviving advance's
balance are non-negative. -/
theorem C8_witness :
    (0:ℚ) ≤ (49049 : ℚ) / 500000 ∧
    (0:ℚ) ≤ ({ id := 1, date := 1, initial_amount := 200,
               current_balance := 7007 / 50 } : Advance).current_balance :=
  And.intro
    (by
      have h := ((C8_theorem default_rate 4
        [{ id := 1, type := "advance", amount := 200, date_created := 1 },
         { id := 2, type := "payment", amount := 60, date_created := 3 }]
        (by decide) (by decide) (by decide) (by decide)).2
        { overall_advance_balance := 7007 / 50
          overall_interest_payable_balance := 49049 / 500000
          overall_interest_paid := 7 / 50
          overall_payments_for_future := 0
          last_interest_date_calculated := some 5
          advances := [{ id := 1, date := 1, initial_amount := 200,
                         current_balance := 7007 / 50 }] } (by decide)).1
      exact h)
    (by
      have h := ((C8_theorem default_rate 4
        [{ id := 1, type := "advance", amount := 200, date_created := 1 },
         { id := 2, type := "payment", amount := 60, date_created := 3 }]
        (by decide) (by decide) (by decide) (by decide)).2
        { overall_advance_balance := 7007 / 50
          overall_interest_payable_balance := 49049 / 500000
          overall_interest_paid := 7 / 50
          overall_payments_for_future := 0
          last_interest_date_calculated := some 5
          advances := [{ id := 1, date := 1, initial_amount := 200,
                         current_balance := 7007 / 50 }] } (by decide)).2.2.2
      exact h _ (List.mem_singleton.mpr rfl))
